import Mathlib

/-!
Verification of the SnakeSpeller game simulation (src/src/App.tsx).

The whole simulation lives in one React component.  We embed it shallowly:

* `Pos` models the `{x, y}` coordinate objects; coordinates are `Int`
  because a computed new head may leave the `[0, GRID_SIZE)` board.
* `Food` models the food items `{id, x, y, letter}` produced by
  `generateFoodsForWord`.
* `GameState` gathers the React state hooks (`hasStarted`, `snake`,
  `direction`, the `directionQueue` ref, `word`, `wordIndex`, `foods`,
  `score`, `highScore`, `gameOver`, `isPaused`, `speed`).
* Randomness (`Math.random`) is modelled by an explicit stream
  `rand : Nat → Nat × Nat` of raw samples; `samplePos` reduces a raw
  sample into the grid exactly as `Math.floor(Math.random()*GRID_SIZE)`
  lands in `[0, GRID_SIZE)`.  The unbounded `while (true)` rejection
  loop of `generateFoodsForWord` is modelled by the fuel-indexed
  `findFreePos`: `none` means the fuel ran out while the source's loop
  was still spinning (the source itself has no failure outcome at all).
* The `useInterval` tick callback becomes `step`, the `handleKeyDown`
  listener becomes `handleKeyDown` over an abstract `Key`, the mobile
  button handler becomes `handleDirectionClick`, the pause button
  becomes `togglePause`, `resetGame`/`startGame` keep their names, and
  the high-score `useEffect` becomes `highScoreEffect`, whose second
  component records the `localStorage.setItem` call (the score store's
  `set`) when it fires.
-/

@[ext]
structure Pos where
  x : Int
  y : Int
  deriving DecidableEq

structure Food where
  id : String
  x : Int
  y : Int
  letter : Char
  deriving DecidableEq

/-- The board position of a food item. -/
def Food.pos (f : Food) : Pos := { x := f.x, y := f.y }

def GRID_SIZE : Nat := 20

def INITIAL_SNAKE : List Pos :=
  [{ x := 10, y := 10 }, { x := 10, y := 11 }, { x := 10, y := 12 }]

def INITIAL_DIRECTION : Pos := { x := 0, y := -1 }

def BASE_SPEED : Nat := 150

def WORDS : List (List Char) :=
  (["SERPENTE", "MELA", "GIOCO", "COMPUTER", "PROGRAMMA",
    "TASTIERA", "PYTHON", "REACT", "JAVASCRIPT", "CODICE",
    "INFORMATICA", "SVILUPPO", "WEB", "INTERNET", "SCHERMO",
    "ALGORITMO", "VARIABILE", "FUNZIONE", "SISTEMA", "RETE"]).map String.toList

/-- The coordinate comparison `pos.x === newPos.x && pos.y === newPos.y`
used throughout the source. -/
def cellEq (p q : Pos) : Bool := p.x == q.x && p.y == q.y

/-- One raw call of the sampler
`{x: Math.floor(Math.random()*GRID_SIZE), y: Math.floor(Math.random()*GRID_SIZE)}`:
the stream value at index `k`, reduced into the grid. -/
def samplePos (rand : Nat → Nat × Nat) (k : Nat) : Pos :=
  { x := Int.ofNat ((rand k).1 % GRID_SIZE), y := Int.ofNat ((rand k).2 % GRID_SIZE) }

/-- A cell that the sampler can produce: both coordinates in `[0, GRID_SIZE)`. -/
def inGrid (p : Pos) : Prop :=
  0 ≤ p.x ∧ p.x < (GRID_SIZE : Int) ∧ 0 ≤ p.y ∧ p.y < (GRID_SIZE : Int)

/-- The `while (true)` rejection loop of `generateFoodsForWord`, indexed by
fuel: sample at stream index `k`, retry while the sample is occupied.
`some (p, k')` returns the accepted cell plus the next unused stream index;
`none` means the fuel was exhausted with the source's loop still running —
the source has no escape from this loop other than finding a free cell. -/
def findFreePos (rand : Nat → Nat × Nat) (occ : List Pos) :
    Nat → Nat → Option (Pos × Nat)
  | 0, _ => none
  | fuel + 1, k =>
    let newPos := samplePos rand k
    if occ.any (fun pos => cellEq pos newPos) then
      findFreePos rand occ fuel (k + 1)
    else
      some (newPos, k + 1)

/-- The food identity `` `${i}-${newPos.x}-${newPos.y}` ``. -/
def foodId (i : Nat) (p : Pos) : String :=
  toString i ++ "-" ++ toString p.x ++ "-" ++ toString p.y

/-- The letter loop of `generateFoodsForWord`: place each letter of the
remaining word, at letter index `i`, against the accumulating occupied
list, consuming the random stream from index `k` on. -/
def genFoodsAux (rand : Nat → Nat × Nat) (fuel : Nat) :
    List Char → Nat → List Pos → Nat → Option (List Food)
  | [], _, _, _ => some []
  | c :: rest, i, occ, k =>
    match findFreePos rand occ fuel k with
    | none => none
    | some (p, k') =>
      match genFoodsAux rand fuel rest (i + 1) (occ ++ [p]) k' with
      | none => none
      | some fs => some ({ id := foodId i p, x := p.x, y := p.y, letter := c } :: fs)

/-- `generateFoodsForWord(word, snake)` from the source, under an explicit
random stream and a fuel bound for each rejection loop. -/
def generateFoodsForWord (word : List Char) (snake : List Pos)
    (rand : Nat → Nat × Nat) (fuel : Nat) : Option (List Food) :=
  genFoodsAux rand fuel word 0 snake 0

structure GameState where
  hasStarted : Bool
  snake : List Pos
  direction : Pos
  dirQueue : List Pos
  word : List Char
  wordIndex : Nat
  foods : List Food
  score : Nat
  highScore : Nat
  gameOver : Bool
  isPaused : Bool
  speed : Nat
  deriving DecidableEq

/-- The direction the tick will commit: the queue's head if the queue is
non-empty (`directionQueue.current.shift()`), otherwise the already
committed direction. -/
def nextDir (g : GameState) : Pos := g.dirQueue.headD g.direction

/-- `newHead = {x: head.x + dir.x, y: head.y + dir.y}` for the direction
the tick commits. -/
def newHeadOf (g : GameState) : Pos :=
  { x := (g.snake.headD { x := 0, y := 0 }).x + (nextDir g).x,
    y := (g.snake.headD { x := 0, y := 0 }).y + (nextDir g).y }

/-- The wall-collision test
`newHead.x < 0 || newHead.x >= GRID_SIZE || newHead.y < 0 || newHead.y >= GRID_SIZE`. -/
def outsideGrid (p : Pos) : Bool :=
  decide (p.x < 0) || decide ((GRID_SIZE : Int) ≤ p.x) ||
  decide (p.y < 0) || decide ((GRID_SIZE : Int) ≤ p.y)

/-- One tick of the `useInterval` callback.  `rand`/`fuel` feed the food
regeneration on word completion and `wordChoice` the raw sample behind
`WORDS[Math.floor(Math.random() * WORDS.length)]`; `none` only when the
regeneration's modelling fuel runs out. -/
def step (rand : Nat → Nat × Nat) (fuel wordChoice : Nat) (g : GameState) :
    Option GameState :=
  if !g.hasStarted || g.gameOver || g.isPaused then some g else
  let dir := nextDir g
  let queue := g.dirQueue.tail
  let newHead := newHeadOf g
  if outsideGrid newHead then
    some { g with direction := dir, dirQueue := queue, gameOver := true }
  else if g.snake.any (fun segment => cellEq segment newHead) then
    some { g with direction := dir, dirQueue := queue, gameOver := true }
  else
    let newSnake := newHead :: g.snake
    match g.foods.find? (fun f => cellEq f.pos newHead) with
    | some eatenFood =>
      if g.word[g.wordIndex]? = some eatenFood.letter then
        let newFoods := g.foods.eraseP (fun f => cellEq f.pos newHead)
        let nextIndex := g.wordIndex + 1
        if g.word.length ≤ nextIndex then
          let nextWord := WORDS.getD (wordChoice % WORDS.length) []
          match generateFoodsForWord nextWord newSnake rand fuel with
          | none => none
          | some fs =>
            some { g with direction := dir, dirQueue := queue, snake := newSnake,
                          score := g.score + 10 + 50, word := nextWord,
                          wordIndex := 0, foods := fs,
                          speed := max 60 (g.speed - 5) }
        else
          some { g with direction := dir, dirQueue := queue, snake := newSnake,
                        score := g.score + 10, wordIndex := nextIndex,
                        foods := newFoods }
      else
        some { g with direction := dir, dirQueue := queue, gameOver := true }
    | none =>
      some { g with direction := dir, dirQueue := queue, snake := newSnake.dropLast }

/-- The game keys handled by `handleKeyDown`: the four directions (arrow
keys and WASD coincide case by case) and space/escape. -/
inductive Key where
  | up
  | down
  | left
  | right
  | space
  deriving DecidableEq

/-- The per-key guard of `handleKeyDown`'s switch: the candidate new
direction, or `none` when the guard rejects the key (or for space). -/
def keyNewDir (k : Key) (lastDir : Pos) : Option Pos :=
  match k with
  | Key.up => if lastDir.y == 1 then none else some { x := 0, y := -1 }
  | Key.down => if lastDir.y == -1 then none else some { x := 0, y := 1 }
  | Key.left => if lastDir.x == 1 then none else some { x := -1, y := 0 }
  | Key.right => if lastDir.x == -1 then none else some { x := 1, y := 0 }
  | Key.space => none

/-- The reference direction of both input handlers: the last queued
direction, or the committed direction when the queue is empty. -/
def refDir (g : GameState) : Pos := g.dirQueue.getLastD g.direction

/-- The `handleKeyDown` listener (direction keys, space/escape pause
toggle), minus the `preventDefault` call which has no simulation effect. -/
def handleKeyDown (k : Key) (g : GameState) : GameState :=
  if !g.hasStarted || g.gameOver then g
  else if k = Key.space then { g with isPaused := !g.isPaused }
  else
    match keyNewDir k (refDir g) with
    | none => g
    | some newDir =>
      if (refDir g).x ≠ newDir.x ∨ (refDir g).y ≠ newDir.y then
        { g with dirQueue := g.dirQueue ++ [newDir] }
      else g

/-- The on-screen button handler `handleDirectionClick`. -/
def handleDirectionClick (newDir : Pos) (g : GameState) : GameState :=
  if !g.hasStarted || g.gameOver || g.isPaused then g
  else if (refDir g).x ≠ 0 ∧ newDir.x = -(refDir g).x then g
  else if (refDir g).y ≠ 0 ∧ newDir.y = -(refDir g).y then g
  else if (refDir g).x ≠ newDir.x ∨ (refDir g).y ≠ newDir.y then
    { g with dirQueue := g.dirQueue ++ [newDir] }
  else g

/-- The pause button between the score displays. -/
def togglePause (g : GameState) : GameState :=
  if g.hasStarted && !g.gameOver then { g with isPaused := !g.isPaused } else g

/-- `resetGame` from the source: reinitialise every piece of game state
(`hasStarted` and `highScore` are untouched), with `wordChoice` the raw
sample behind the random catalog pick. -/
def resetGame (rand : Nat → Nat × Nat) (fuel wordChoice : Nat) (g : GameState) :
    Option GameState :=
  let newWord := WORDS.getD (wordChoice % WORDS.length) []
  match generateFoodsForWord newWord INITIAL_SNAKE rand fuel with
  | none => none
  | some fs =>
    some { g with snake := INITIAL_SNAKE, direction := INITIAL_DIRECTION,
                  dirQueue := [], word := newWord, wordIndex := 0, foods := fs,
                  score := 0, speed := BASE_SPEED, gameOver := false,
                  isPaused := false }

/-- `startGame` from the source: it only raises `hasStarted` (and focuses
the container, which has no simulation effect). -/
def startGame (g : GameState) : GameState := { g with hasStarted := true }

/-- The high-score `useEffect`, which runs after every change of `score`
or `highScore`: when `score > highScore` it raises `highScore` and calls
`localStorage.setItem` — the score store's `set` — recorded in the second
component as the written value. -/
def highScoreEffect (g : GameState) : GameState × Option Nat :=
  if g.highScore < g.score then ({ g with highScore := g.score }, some g.score)
  else (g, none)

/-! ## Concrete fixtures used by witnesses and counterexamples -/

/-- A random stream that always proposes the cell `(0, 0)`. -/
def rand0 : Nat → Nat × Nat := fun _ => (0, 0)

/-- A random stream proposing the diagonal cells `(k, k)`. -/
def randDiag : Nat → Nat × Nat := fun k => (k, k)

def aFood : Food := { id := "0-10-9", x := 10, y := 9, letter := 'A' }

def bFood : Food := { id := "1-5-5", x := 5, y := 5, letter := 'B' }

def zFood : Food := { id := "0-10-9", x := 10, y := 9, letter := 'Z' }

/-- The running state of the spec's worked scenario: initial snake, moving
up, word `"AB"`, food `'A'` at `(10, 9)` and `'B'` at `(5, 5)`. -/
def gBase : GameState :=
  { hasStarted := true, snake := INITIAL_SNAKE, direction := INITIAL_DIRECTION,
    dirQueue := [], word := String.toList "AB", wordIndex := 0,
    foods := [aFood, bFood], score := 0, highScore := 0, gameOver := false,
    isPaused := false, speed := BASE_SPEED }

/-! ## Generator lemmas -/

theorem cellEq_iff {p q : Pos} : cellEq p q = true ↔ p = q := by
  simp [cellEq, Pos.ext_iff]

theorem samplePos_inGrid (rand : Nat → Nat × Nat) (k : Nat) :
    inGrid (samplePos rand k) := by
  simp only [inGrid, samplePos, GRID_SIZE, Int.ofNat_eq_natCast]
  omega

theorem findFreePos_free {rand : Nat → Nat × Nat} {occ : List Pos} :
    ∀ {fuel k : Nat} {p : Pos} {k' : Nat},
      findFreePos rand occ fuel k = some (p, k') → p ∉ occ ∧ inGrid p := by
  intro fuel
  induction fuel with
  | zero => intro k p k' h; exact absurd h (by simp [findFreePos])
  | succ n ih =>
    intro k p k' h
    rw [findFreePos] at h
    split at h
    · exact ih h
    · rename_i hocc
      injection h with h
      cases h
      refine ⟨fun hmem => hocc ?ha, samplePos_inGrid rand k⟩
      exact List.any_eq_true.mpr ⟨_, hmem, cellEq_iff.mpr rfl⟩

theorem genFoodsAux_spec {rand : Nat → Nat × Nat} {fuel : Nat} :
    ∀ {w : List Char} {i : Nat} {occ : List Pos} {k : Nat} {fs : List Food},
      genFoodsAux rand fuel w i occ k = some fs →
      fs.map Food.letter = w ∧
      (∀ f ∈ fs, f.pos ∉ occ) ∧
      (fs.map Food.pos).Nodup ∧
      (∀ j f, fs[j]? = some f → f.id = foodId (i + j) f.pos) := by
  intro w
  induction w with
  | nil =>
    intro i occ k fs h
    simp only [genFoodsAux, Option.some.injEq] at h
    subst h
    simp
  | cons c rest ih =>
    intro i occ k fs h
    rw [genFoodsAux] at h
    split at h
    · exact absurd h (by simp)
    rename_i p k' hf
    split at h
    · exact absurd h (by simp)
    rename_i fs' hg
    injection h with h
    subst h
    obtain ⟨hfree, hgrid⟩ := findFreePos_free hf
    obtain ⟨hlet, hnocc, hnd, hid⟩ := ih hg
    have hpos : Food.pos { id := foodId i p, x := p.x, y := p.y, letter := c } = p := rfl
    refine ⟨?lets, ?free, ?nd, ?ids⟩
    case lets => simp [hlet]
    case free =>
      intro f hf'
      rcases List.mem_cons.mp hf' with hh | ht
      · subst hh; rw [hpos]; exact hfree
      · intro hmem
        exact hnocc f ht (List.mem_append_left _ hmem)
    case nd =>
      simp only [List.map_cons, List.nodup_cons, hpos]
      refine ⟨fun hmem => ?hc, hnd⟩
      rcases List.mem_map.mp hmem with ⟨f, hfmem, hfp⟩
      exact hnocc f hfmem (by rw [hfp]; exact List.mem_append_right _ (List.mem_singleton.mpr rfl))
    case ids =>
      intro j f hj
      cases j with
      | zero =>
        simp only [List.getElem?_cons_zero, Option.some.injEq] at hj
        subst hj
        simp [hpos]
      | succ j' =>
        simp only [List.getElem?_cons_succ] at hj
        have := hid j' f hj
        have harith : i + 1 + j' = i + (j' + 1) := by omega
        rw [harith] at this
        exact this

/-- Claim C2: for every word `W` and occupied list `O`, a successful run of
`generateFoodsForWord W O` returns exactly `len W` food items, one per letter
of `W` in order, whose positions are pairwise distinct and disjoint from `O`,
each tagged with its letter and the identity derived from its index and
position. -/
theorem generateFoodsForWord_spec (word : List Char) (snake : List Pos)
    (rand : Nat → Nat × Nat) (fuel : Nat) (foods : List Food)
    (h : generateFoodsForWord word snake rand fuel = some foods) :
    foods.length = word.length ∧
    foods.map Food.letter = word ∧
    (foods.map Food.pos).Nodup ∧
    (∀ f ∈ foods, f.pos ∉ snake) ∧
    (∀ j f, foods[j]? = some f → f.id = foodId j f.pos) := by
  obtain ⟨hlet, hnocc, hnd, hid⟩ := genFoodsAux_spec h
  refine ⟨?len, hlet, hnd, hnocc, ?ids⟩
  case len => rw [← hlet]; simp
  case ids =>
    intro j f hj
    have := hid j f hj
    rwa [Nat.zero_add] at this

set_option maxRecDepth 10000 in
/-- Witness for C2 at the word `"AB"` against the initial snake with the
diagonal random stream. -/
theorem generateFoodsForWord_spec_witness :
    generateFoodsForWord (String.toList "AB") INITIAL_SNAKE randDiag 5 =
      some [{ id := "0-0-0", x := 0, y := 0, letter := 'A' },
            { id := "1-1-1", x := 1, y := 1, letter := 'B' }] ∧
    ([{ id := "0-0-0", x := 0, y := 0, letter := 'A' },
      { id := "1-1-1", x := 1, y := 1, letter := 'B' }] : List Food).length =
      (String.toList "AB").length ∧
    ([{ id := "0-0-0", x := 0, y := 0, letter := 'A' },
      { id := "1-1-1", x := 1, y := 1, letter := 'B' }] : List Food).map Food.letter =
      String.toList "AB" ∧
    (([{ id := "0-0-0", x := 0, y := 0, letter := 'A' },
       { id := "1-1-1", x := 1, y := 1, letter := 'B' }] : List Food).map Food.pos).Nodup ∧
    (∀ f ∈ ([{ id := "0-0-0", x := 0, y := 0, letter := 'A' },
             { id := "1-1-1", x := 1, y := 1, letter := 'B' }] : List Food),
        f.pos ∉ INITIAL_SNAKE) ∧
    (∀ j f,
        ([{ id := "0-0-0", x := 0, y := 0, letter := 'A' },
          { id := "1-1-1", x := 1, y := 1, letter := 'B' }] : List Food)[j]? = some f →
        f.id = foodId j f.pos) :=
  ⟨by decide,
   generateFoodsForWord_spec (String.toList "AB") INITIAL_SNAKE randDiag 5 _ (by decide)⟩

/-! ## Board exhaustion (claim C9) -/

/-- Every cell of the 20 × 20 board. -/
def fullGrid : List Pos :=
  (List.range GRID_SIZE).flatMap
    (fun x => (List.range GRID_SIZE).map
      (fun y => { x := Int.ofNat x, y := Int.ofNat y }))

theorem mem_fullGrid {p : Pos} (h : inGrid p) : p ∈ fullGrid := by
  obtain ⟨h1, h2, h3, h4⟩ := h
  have hx : p.x.toNat < GRID_SIZE := by
    simp only [GRID_SIZE] at h2 ⊢
    omega
  have hy : p.y.toNat < GRID_SIZE := by
    simp only [GRID_SIZE] at h4 ⊢
    omega
  simp only [fullGrid, List.mem_flatMap, List.mem_map, List.mem_range]
  refine ⟨p.x.toNat, hx, p.y.toNat, hy, ?hp⟩
  ext
  · simp [Int.toNat_of_nonneg h1]
  · simp [Int.toNat_of_nonneg h3]

/-- Claim C9 (amended): the source's rejection loop has no retry cap and no
board-exhausted failure; when the occupied list covers the whole grid every
sample is rejected, so for every fuel bound the modelled loop exhausts its
fuel without ever accepting a cell — the source's `while (true)` loop never
terminates and no failure is ever surfaced. -/
theorem findFreePos_board_full (rand : Nat → Nat × Nat) (occ : List Pos)
    (hocc : ∀ p, inGrid p → p ∈ occ) :
    ∀ fuel k, findFreePos rand occ fuel k = none := by
  intro fuel
  induction fuel with
  | zero => intro k; rfl
  | succ n ih =>
    intro k
    rw [findFreePos]
    have hmem : samplePos rand k ∈ occ := hocc _ (samplePos_inGrid rand k)
    have hany : occ.any (fun pos => cellEq pos (samplePos rand k)) = true :=
      List.any_eq_true.mpr ⟨_, hmem, cellEq_iff.mpr rfl⟩
    simp only [hany, if_true, ih]

/-- Witness for C9 (amended) on the fully occupied board. -/
theorem findFreePos_board_full_witness :
    findFreePos rand0 fullGrid 3 0 = none :=
  findFreePos_board_full rand0 fullGrid (fun _ hp => mem_fullGrid hp) 3 0

set_option maxRecDepth 100000 in
/-- Counterexample for C9 as stated: with the whole board occupied, the
rejection loop is still spinning after 400 attempts — one per board cell,
more than any sensible retry cap — having neither accepted a cell nor
signalled any board-exhausted condition (the loop's only exit in the source
is finding a free cell; `none` records that the modelling fuel ran out while
the loop was still running). -/
theorem findFreePos_board_full_cex :
    findFreePos rand0 fullGrid 400 0 = none := by decide

/-- Food `'B'` at `(10, 9)`, directly ahead of the snake. -/
def bFoodAhead : Food := { id := "1-10-9", x := 10, y := 9, letter := 'B' }

/-- gBase about to eat the final letter of `"AB"`. -/
def gC1 : GameState := { gBase with wordIndex := 1, foods := [bFoodAhead] }

/-- gBase with the wrong letter `'Z'` directly ahead. -/
def gWrong : GameState := { gBase with foods := [zFood] }

/-- Snake with head `(0, 5)` moving left into the wall. -/
def gWall : GameState :=
  { gBase with snake := [{ x := 0, y := 5 }, { x := 1, y := 5 }, { x := 2, y := 5 }],
               direction := { x := -1, y := 0 }, foods := [] }

/-- The foods `generateFoodsForWord` places for `"MELA"` against the grown
snake under the diagonal stream. -/
def melaFoods : List Food :=
  [{ id := "0-0-0", x := 0, y := 0, letter := 'M' },
   { id := "1-1-1", x := 1, y := 1, letter := 'E' },
   { id := "2-2-2", x := 2, y := 2, letter := 'L' },
   { id := "3-3-3", x := 3, y := 3, letter := 'A' }]

/-! ## Step lemmas and tick claims -/

theorem getD_mem_of_lt {α : Type} (l : List α) (i : Nat) (d : α) (h : i < l.length) :
    l.getD i d ∈ l := by
  rw [List.getD_eq_getElem?_getD, List.getElem?_eq_getElem h]
  exact List.getElem_mem h

/-- Every outcome of a tick either leaves the state untouched (the
not-started / game-over / paused early return) or commits the dequeued
direction and drops it from the queue. -/
theorem step_some_cases {rand : Nat → Nat × Nat} {fuel wc : Nat} {g g' : GameState}
    (h : step rand fuel wc g = some g') :
    g' = g ∨ (g'.direction = nextDir g ∧ g'.dirQueue = g.dirQueue.tail) := by
  simp only [step] at h
  split at h
  · injection h with h; exact Or.inl h.symm
  · split at h
    · injection h with h; subst h; exact Or.inr ⟨rfl, rfl⟩
    · split at h
      · injection h with h; subst h; exact Or.inr ⟨rfl, rfl⟩
      · split at h
        · split at h
          · split at h
            · split at h
              · exact absurd h (by simp)
              · injection h with h; subst h; exact Or.inr ⟨rfl, rfl⟩
            · injection h with h; subst h; exact Or.inr ⟨rfl, rfl⟩
          · injection h with h; subst h; exact Or.inr ⟨rfl, rfl⟩
        · injection h with h; subst h; exact Or.inr ⟨rfl, rfl⟩

/-- A tick while Running always commits the dequeued direction and drops
it from the queue. -/
theorem step_run_shift {rand : Nat → Nat × Nat} {fuel wc : Nat} {g g' : GameState}
    (hS : g.hasStarted = true) (hGO : g.gameOver = false) (hP : g.isPaused = false)
    (h : step rand fuel wc g = some g') :
    g'.direction = nextDir g ∧ g'.dirQueue = g.dirQueue.tail := by
  simp only [step] at h
  split at h
  · rename_i hcond
    rw [hS, hGO, hP] at hcond
    exact absurd hcond (by decide)
  · split at h
    · injection h with h; subst h; exact ⟨rfl, rfl⟩
    · split at h
      · injection h with h; subst h; exact ⟨rfl, rfl⟩
      · split at h
        · split at h
          · split at h
            · split at h
              · exact absurd h (by simp)
              · injection h with h; subst h; exact ⟨rfl, rfl⟩
            · injection h with h; subst h; exact ⟨rfl, rfl⟩
          · injection h with h; subst h; exact ⟨rfl, rfl⟩
        · injection h with h; subst h; exact ⟨rfl, rfl⟩

/-- Claim C3: while Running, if the new head (head plus committed direction)
leaves the board or equals an existing snake cell, the tick only sets the
game-over flag and commits the dequeued direction; snake, score, foods, word
and progress index are all unchanged. -/
theorem step_collision_gameOver (rand : Nat → Nat × Nat) (fuel wc : Nat)
    (g : GameState)
    (hS : g.hasStarted = true) (hGO : g.gameOver = false) (hP : g.isPaused = false)
    (hKill : outsideGrid (newHeadOf g) = true ∨
             g.snake.any (fun segment => cellEq segment (newHeadOf g)) = true) :
    step rand fuel wc g =
      some { g with direction := nextDir g, dirQueue := g.dirQueue.tail,
                    gameOver := true } := by
  rcases hKill with hW | hAny
  · simp [step, hS, hGO, hP, hW]
  · rcases Bool.eq_false_or_eq_true (outsideGrid (newHeadOf g)) with hW | hW
    all_goals try simp [step, hS, hGO, hP, hW]
    all_goals intro hall
    all_goals obtain ⟨s, hs, hcell⟩ := List.any_eq_true.mp hAny
    all_goals rw [hall s hs] at hcell
    all_goals exact absurd hcell (by decide)

/-- Witness for C3: the spec's wall scenario, head `(0, 5)` moving left. -/
theorem step_collision_gameOver_witness :
    step rand0 5 0 gWall =
      some { gWall with direction := nextDir gWall, dirQueue := gWall.dirQueue.tail,
                        gameOver := true } :=
  step_collision_gameOver rand0 5 0 gWall (by decide) (by decide) (by decide)
    (Or.inl (by decide))

/-- Claim C5: a tick executed while Running that does not end in game over
leaves the snake length unchanged or grows it by exactly one. -/
theorem step_snake_length (rand : Nat → Nat × Nat) (fuel wc : Nat)
    (g g' : GameState)
    (hS : g.hasStarted = true) (hGO : g.gameOver = false) (hP : g.isPaused = false)
    (h : step rand fuel wc g = some g') (hAlive : g'.gameOver = false) :
    g'.snake.length = g.snake.length ∨ g'.snake.length = g.snake.length + 1 := by
  simp only [step] at h
  split at h
  · rename_i hcond
    rw [hS, hGO, hP] at hcond
    exact absurd hcond (by decide)
  · split at h
    · injection h with h; subst h; simp at hAlive
    · split at h
      · injection h with h; subst h; simp at hAlive
      · split at h
        · split at h
          · split at h
            · split at h
              · exact absurd h (by simp)
              · injection h with h; subst h
                right
                simp
            · injection h with h; subst h
              right
              simp
          · injection h with h; subst h; simp at hAlive
        · injection h with h; subst h
          left
          simp [List.length_dropLast]

/-- Witness for C5: the spec's correct-letter scenario grows the snake from
3 to 4 cells. -/
theorem step_snake_length_witness :
    step rand0 5 0 gBase =
      some { gBase with snake := { x := 10, y := 9 } :: INITIAL_SNAKE,
                        score := 10, wordIndex := 1, foods := [bFood] } ∧
    (({ gBase with snake := { x := 10, y := 9 } :: INITIAL_SNAKE,
                   score := 10, wordIndex := 1, foods := [bFood] } : GameState).snake.length
        = gBase.snake.length ∨
      ({ gBase with snake := { x := 10, y := 9 } :: INITIAL_SNAKE,
                    score := 10, wordIndex := 1, foods := [bFood] } : GameState).snake.length
        = gBase.snake.length + 1) :=
  ⟨by decide,
   step_snake_length rand0 5 0 gBase _ (by decide) (by decide) (by decide)
     (by decide) (by decide)⟩

/-- Claim C7 (amended): on a wrong-letter tick the phase transitions to
game over and nothing else changes: the early return fires before
`setSnake(newSnake)`, so the locally grown snake is discarded and the
committed snake state stays exactly the pre-step snake (the dequeued
direction was already committed in step 1). -/
theorem step_wrong_letter_freezes (rand : Nat → Nat × Nat) (fuel wc : Nat)
    (g : GameState) (fd : Food)
    (hS : g.hasStarted = true) (hGO : g.gameOver = false) (hP : g.isPaused = false)
    (hW : outsideGrid (newHeadOf g) = false)
    (hSelf : g.snake.any (fun segment => cellEq segment (newHeadOf g)) = false)
    (hF : g.foods.find? (fun f => cellEq f.pos (newHeadOf g)) = some fd)
    (hL : ¬ g.word[g.wordIndex]? = some fd.letter) :
    step rand fuel wc g =
      some { g with direction := nextDir g, dirQueue := g.dirQueue.tail,
                    gameOver := true } := by
  simp [step, hS, hGO, hP, hW, hSelf, hF, hL]

/-- Counterexample for C7 as stated: stepping onto the wrong letter `'Z'`
leaves the snake at its pre-step 3-cell shape — it is not the pre-step snake
with the new head prepended. -/
theorem step_wrong_letter_cex :
    (step rand0 5 0 gWrong).map GameState.snake = some gWrong.snake ∧
    gWrong.snake ≠ newHeadOf gWrong :: gWrong.snake ∧
    (step rand0 5 0 gWrong).map GameState.gameOver = some true := by decide

/-- Witness for C7 (amended) at the wrong-letter scenario. -/
theorem step_wrong_letter_freezes_witness :
    step rand0 5 0 gWrong =
      some { gWrong with direction := nextDir gWrong,
                         dirQueue := gWrong.dirQueue.tail, gameOver := true } :=
  step_wrong_letter_freezes rand0 5 0 gWrong zFood (by decide) (by decide)
    (by decide) (by decide) (by decide) (by decide) (by decide)

/-- Claim C1: a tick that eats the final correct letter of the word awards
`10 + 50` points, selects a new word from the catalog, resets the progress
index to 0, regenerates the food set for the new word against the grown
snake, and decreases the tick interval by 5 clamped to a floor of 60 (its
starting value `BASE_SPEED` being 150). -/
theorem step_word_completion (rand : Nat → Nat × Nat) (fuel wc : Nat)
    (g : GameState) (fd : Food) (fs : List Food)
    (hS : g.hasStarted = true) (hGO : g.gameOver = false) (hP : g.isPaused = false)
    (hW : outsideGrid (newHeadOf g) = false)
    (hSelf : g.snake.any (fun segment => cellEq segment (newHeadOf g)) = false)
    (hF : g.foods.find? (fun f => cellEq f.pos (newHeadOf g)) = some fd)
    (hL : g.word[g.wordIndex]? = some fd.letter)
    (hC : g.wordIndex + 1 = g.word.length)
    (hG : generateFoodsForWord (WORDS.getD (wc % WORDS.length) [])
            (newHeadOf g :: g.snake) rand fuel = some fs) :
    step rand fuel wc g =
      some { g with direction := nextDir g, dirQueue := g.dirQueue.tail,
                    snake := newHeadOf g :: g.snake, score := g.score + 10 + 50,
                    word := WORDS.getD (wc % WORDS.length) [], wordIndex := 0,
                    foods := fs, speed := max 60 (g.speed - 5) } ∧
    WORDS.getD (wc % WORDS.length) [] ∈ WORDS ∧
    BASE_SPEED = 150 := by
  refine ⟨?main, ?mem, rfl⟩
  case main =>
    have hle : g.word.length ≤ g.wordIndex + 1 := le_of_eq hC.symm
    have hG2 : generateFoodsForWord (WORDS[wc % WORDS.length]?.getD [])
        (newHeadOf g :: g.snake) rand fuel = some fs := by
      rw [← List.getD_eq_getElem?_getD]
      exact hG
    simp [step, hS, hGO, hP, hW, hSelf, hF, hL, hle, hG2]
  case mem =>
    exact getD_mem_of_lt WORDS _ [] (Nat.mod_lt _ (by decide))

/-- Witness for C1: eating the `'B'` of `"AB"` at `(10, 9)` with word
choice sample 1 (the catalog word `"MELA"`). -/
theorem step_word_completion_witness :
    step randDiag 5 1 gC1 =
      some { gC1 with direction := nextDir gC1, dirQueue := gC1.dirQueue.tail,
                      snake := newHeadOf gC1 :: gC1.snake,
                      score := gC1.score + 10 + 50,
                      word := WORDS.getD (1 % WORDS.length) [], wordIndex := 0,
                      foods := melaFoods, speed := max 60 (gC1.speed - 5) } ∧
    WORDS.getD (1 % WORDS.length) [] ∈ WORDS ∧
    BASE_SPEED = 150 :=
  step_word_completion randDiag 5 1 gC1 bFoodAhead melaFoods (by decide) (by decide)
    (by decide) (by decide) (by decide) (by decide) (by decide) (by decide) (by decide)

/-! ## Direction queue discipline (claim C4) -/

/-- The exact negation (180° reversal) of a direction. -/
def negPos (p : Pos) : Pos := { x := -p.x, y := -p.y }

/-- Along `committed :: queue`, no queued direction is the direct reversal
of the direction it will replace. -/
def chainOKb : Pos → List Pos → Bool
  | _, [] => true
  | d, q :: rest => (q != negPos d) && chainOKb q rest

theorem chainOKb_append {d nd : Pos} {q : List Pos} (h : chainOKb d q = true)
    (h2 : nd ≠ negPos (q.getLastD d)) : chainOKb d (q ++ [nd]) = true := by
  induction q generalizing d with
  | nil =>
    simp only [List.nil_append, chainOKb, Bool.and_true, bne_iff_ne, ne_eq]
    exact h2
  | cons a rest ih =>
    rw [List.getLastD_cons] at h2
    simp only [chainOKb, Bool.and_eq_true] at h
    simp only [List.cons_append, chainOKb, Bool.and_eq_true]
    exact ⟨h.1, ih h.2 h2⟩

/-- A direction accepted by `handleKeyDown`'s per-key guard is never the
reversal of the reference direction. -/
theorem keyNewDir_not_rev {k : Key} {ref nd : Pos} (h : keyNewDir k ref = some nd) :
    nd ≠ negPos ref := by
  intro he
  cases k <;> simp only [keyNewDir] at h
  case up =>
    split at h
    · exact absurd h (by simp)
    · rename_i hy
      injection h with h
      subst h
      have hyy := congrArg Pos.y he
      simp only [negPos] at hyy
      have : ref.y = 1 := by omega
      exact hy (by simp [this])
  case down =>
    split at h
    · exact absurd h (by simp)
    · rename_i hy
      injection h with h
      subst h
      have hyy := congrArg Pos.y he
      simp only [negPos] at hyy
      have : ref.y = -1 := by omega
      exact hy (by simp [this])
  case left =>
    split at h
    · exact absurd h (by simp)
    · rename_i hx
      injection h with h
      subst h
      have hxx := congrArg Pos.x he
      simp only [negPos] at hxx
      have : ref.x = 1 := by omega
      exact hx (by simp [this])
  case right =>
    split at h
    · exact absurd h (by simp)
    · rename_i hx
      injection h with h
      subst h
      have hxx := congrArg Pos.x he
      simp only [negPos] at hxx
      have : ref.x = -1 := by omega
      exact hx (by simp [this])
  case space => exact absurd h (by simp)

/-- `handleKeyDown` never touches the committed direction, and either
leaves the queue alone or appends the guard-accepted direction when it
differs from the reference. -/
theorem handleKeyDown_cases (k : Key) (g : GameState) :
    (handleKeyDown k g).direction = g.direction ∧
    ((handleKeyDown k g).dirQueue = g.dirQueue ∨
     ∃ nd, keyNewDir k (refDir g) = some nd ∧ nd ≠ refDir g ∧
           (handleKeyDown k g).dirQueue = g.dirQueue ++ [nd]) := by
  unfold handleKeyDown
  split
  · exact ⟨rfl, Or.inl rfl⟩
  · split
    · exact ⟨rfl, Or.inl rfl⟩
    · split
      · exact ⟨rfl, Or.inl rfl⟩
      · rename_i nd hnd
        split
        · rename_i hne
          refine ⟨rfl, Or.inr ⟨nd, hnd, ?ne, rfl⟩⟩
          intro he
          rcases hne with h | h <;> exact h (by rw [he])
        · exact ⟨rfl, Or.inl rfl⟩

/-- `handleDirectionClick` never touches the committed direction, and
either leaves the queue alone or appends a direction that is neither the
reference nor its reversal. -/
theorem handleDirectionClick_cases (nd : Pos) (g : GameState) :
    (handleDirectionClick nd g).direction = g.direction ∧
    ((handleDirectionClick nd g).dirQueue = g.dirQueue ∨
     ((handleDirectionClick nd g).dirQueue = g.dirQueue ++ [nd] ∧
      nd ≠ refDir g ∧ nd ≠ negPos (refDir g))) := by
  unfold handleDirectionClick
  split
  · exact ⟨rfl, Or.inl rfl⟩
  · split
    · exact ⟨rfl, Or.inl rfl⟩
    · rename_i hg1
      split
      · exact ⟨rfl, Or.inl rfl⟩
      · rename_i hg2
        split
        · rename_i hne
          refine ⟨rfl, Or.inr ⟨rfl, ?ne, ?nrev⟩⟩
          case ne =>
            intro he
            rcases hne with h | h <;> exact h (by rw [he])
          case nrev =>
            intro he
            have hx : nd.x = -(refDir g).x := by rw [he]; rfl
            have hy : nd.y = -(refDir g).y := by rw [he]; rfl
            have hrx : (refDir g).x = 0 := by
              by_contra hc
              exact hg1 ⟨hc, hx⟩
            have hry : (refDir g).y = 0 := by
              by_contra hc
              exact hg2 ⟨hc, hy⟩
            rcases hne with h | h
            · exact h (by omega)
            · exact h (by omega)
        · exact ⟨rfl, Or.inl rfl⟩

/-- Claim C4: provided every queued direction already respects the
no-reversal chain, a keyboard push or a button push appends a direction
only if it differs from the reference direction (last queued, else
committed) and is not that reference's reversal — preserving the chain —
and a tick never commits the exact negation of the previously committed
direction. -/
theorem direction_no_reversal (g : GameState)
    (hq : chainOKb g.direction g.dirQueue = true) :
    (∀ k, (handleKeyDown k g).direction = g.direction ∧
          chainOKb (handleKeyDown k g).direction (handleKeyDown k g).dirQueue = true ∧
          ((handleKeyDown k g).dirQueue = g.dirQueue ∨
           ∃ nd, keyNewDir k (refDir g) = some nd ∧ nd ≠ refDir g ∧
                 nd ≠ negPos (refDir g) ∧
                 (handleKeyDown k g).dirQueue = g.dirQueue ++ [nd])) ∧
    (∀ nd, (handleDirectionClick nd g).direction = g.direction ∧
           chainOKb (handleDirectionClick nd g).direction
             (handleDirectionClick nd g).dirQueue = true ∧
           ((handleDirectionClick nd g).dirQueue = g.dirQueue ∨
            ((handleDirectionClick nd g).dirQueue = g.dirQueue ++ [nd] ∧
             nd ≠ refDir g ∧ nd ≠ negPos (refDir g)))) ∧
    (∀ rand fuel wc g', step rand fuel wc g = some g' →
       chainOKb g'.direction g'.dirQueue = true ∧
       (g'.direction = g.direction ∨ g'.direction ≠ negPos g.direction)) := by
  refine ⟨?keys, ?clicks, ?ticks⟩
  case keys =>
    intro k
    obtain ⟨hdir, hcase⟩ := handleKeyDown_cases k g
    rcases hcase with hsame | ⟨nd, hnd, hne, happ⟩
    · exact ⟨hdir, by rw [hdir, hsame]; exact hq, Or.inl hsame⟩
    · have hnrev := keyNewDir_not_rev hnd
      exact ⟨hdir, by rw [hdir, happ]; exact chainOKb_append hq hnrev,
             Or.inr ⟨nd, hnd, hne, hnrev, happ⟩⟩
  case clicks =>
    intro nd
    obtain ⟨hdir, hcase⟩ := handleDirectionClick_cases nd g
    rcases hcase with hsame | ⟨happ, hne, hnrev⟩
    · exact ⟨hdir, by rw [hdir, hsame]; exact hq, Or.inl hsame⟩
    · exact ⟨hdir, by rw [hdir, happ]; exact chainOKb_append hq hnrev,
             Or.inr ⟨happ, hne, hnrev⟩⟩
  case ticks =>
    intro rand fuel wc g' h
    rcases step_some_cases h with heq | ⟨hd, hqu⟩
    · subst heq
      exact ⟨hq, Or.inl rfl⟩
    · cases hlist : g.dirQueue with
      | nil =>
        simp only [nextDir, hlist, List.headD_nil] at hd
        rw [hlist] at hqu
        simp only [List.tail_nil] at hqu
        refine ⟨?chainNil, Or.inl hd⟩
        case chainNil =>
          rw [hd, hqu]
          rfl
      | cons d rest =>
        simp only [nextDir, hlist, List.headD_cons] at hd
        rw [hlist] at hqu
        simp only [List.tail_cons] at hqu
        rw [hlist] at hq
        simp only [chainOKb, Bool.and_eq_true] at hq
        refine ⟨?chainCons, Or.inr ?nrev⟩
        case chainCons =>
          rw [hd, hqu]
          exact hq.2
        case nrev =>
          rw [hd]
          exact bne_iff_ne.mp hq.1
  
/-- Witness for C4 at the initial running state. -/
theorem direction_no_reversal_witness :
    (∀ k, (handleKeyDown k gBase).direction = gBase.direction ∧
          chainOKb (handleKeyDown k gBase).direction (handleKeyDown k gBase).dirQueue = true ∧
          ((handleKeyDown k gBase).dirQueue = gBase.dirQueue ∨
           ∃ nd, keyNewDir k (refDir gBase) = some nd ∧ nd ≠ refDir gBase ∧
                 nd ≠ negPos (refDir gBase) ∧
                 (handleKeyDown k gBase).dirQueue = gBase.dirQueue ++ [nd])) ∧
    (∀ nd, (handleDirectionClick nd gBase).direction = gBase.direction ∧
           chainOKb (handleDirectionClick nd gBase).direction
             (handleDirectionClick nd gBase).dirQueue = true ∧
           ((handleDirectionClick nd gBase).dirQueue = gBase.dirQueue ∨
            ((handleDirectionClick nd gBase).dirQueue = gBase.dirQueue ++ [nd] ∧
             nd ≠ refDir gBase ∧ nd ≠ negPos (refDir gBase)))) ∧
    (∀ rand fuel wc g', step rand fuel wc gBase = some g' →
       chainOKb g'.direction g'.dirQueue = true ∧
       (g'.direction = gBase.direction ∨ g'.direction ≠ negPos gBase.direction)) :=
  direction_no_reversal gBase (by decide)

/-! ## Score behaviour (claim C6) -/

/-- The initial hook values of the component: not started, initial snake
and direction, word `WORDS[0]` with its generated foods, score 0, the
stored high score from the score store, base speed. -/
def initialState (rand : Nat → Nat × Nat) (fuel : Nat) (storedHighScore : Nat) :
    Option GameState :=
  match generateFoodsForWord (WORDS.getD 0 []) INITIAL_SNAKE rand fuel with
  | none => none
  | some fs =>
    some { hasStarted := false, snake := INITIAL_SNAKE,
           direction := INITIAL_DIRECTION, dirQueue := [],
           word := WORDS.getD 0 [], wordIndex := 0, foods := fs, score := 0,
           highScore := storedHighScore, gameOver := false, isPaused := false,
           speed := BASE_SPEED }

/-- Claim C6 (amended): the score is monotonically non-decreasing across
every operation — a tick adds 0, 10 or 60 points and no input handler, the
pause toggle or the high-score effect ever changes it — and it is set back
to 0 exactly by `resetGame`; `startGame` leaves the score unchanged (the
score is 0 in the initial state, the only state from which the start screen
is shown). -/
theorem score_behaviour :
    (∀ rand fuel wc g g', step rand fuel wc g = some g' →
        g.score ≤ g'.score ∧
        (g'.score = g.score ∨ g'.score = g.score + 10 ∨ g'.score = g.score + 60)) ∧
    (∀ rand fuel wc g g', resetGame rand fuel wc g = some g' → g'.score = 0) ∧
    (∀ g, (startGame g).score = g.score) ∧
    (∀ rand fuel hs g0, initialState rand fuel hs = some g0 →
        g0.score = 0 ∧ (startGame g0).score = 0) ∧
    (∀ k g, (handleKeyDown k g).score = g.score) ∧
    (∀ nd g, (handleDirectionClick nd g).score = g.score) ∧
    (∀ g, (togglePause g).score = g.score) ∧
    (∀ g, ((highScoreEffect g).1).score = g.score) := by
  refine ⟨?steps, ?resets, ?starts, ?inits, ?keys, ?clicks, ?pauses, ?effects⟩
  case steps =>
    intro rand fuel wc g g' h
    simp only [step] at h
    split at h
    · injection h with h
      subst h
      exact ⟨le_refl _, Or.inl rfl⟩
    · split at h
      · injection h with h; subst h; exact ⟨le_refl _, Or.inl rfl⟩
      · split at h
        · injection h with h; subst h; exact ⟨le_refl _, Or.inl rfl⟩
        · split at h
          · split at h
            · split at h
              · split at h
                · exact absurd h (by simp)
                · injection h with h; subst h
                  exact ⟨by simp; omega, Or.inr (Or.inr (by simp))⟩
              · injection h with h; subst h
                exact ⟨by simp, Or.inr (Or.inl (by simp))⟩
            · injection h with h; subst h; exact ⟨le_refl _, Or.inl rfl⟩
          · injection h with h; subst h; exact ⟨le_refl _, Or.inl rfl⟩
  case resets =>
    intro rand fuel wc g g' h
    simp only [resetGame] at h
    split at h
    · exact absurd h (by simp)
    · injection h with h; subst h; rfl
  case starts => intro g; rfl
  case inits =>
    intro rand fuel hs g0 h
    simp only [initialState] at h
    split at h
    · exact absurd h (by simp)
    · injection h with h; subst h; exact ⟨rfl, rfl⟩
  case keys =>
    intro k g
    unfold handleKeyDown
    split
    · rfl
    · split
      · rfl
      · split
        · rfl
        · split
          · rfl
          · rfl
  case clicks =>
    intro nd g
    unfold handleDirectionClick
    split
    · rfl
    · split
      · rfl
      · split
        · rfl
        · split
          · rfl
          · rfl
  case pauses =>
    intro g
    unfold togglePause
    split
    · rfl
    · rfl
  case effects =>
    intro g
    unfold highScoreEffect
    split
    · rfl
    · rfl

/-- Counterexample for C6 as stated: `startGame` does not set the score
back to 0 — on a state with score 42 it leaves 42. -/
theorem startGame_score_cex :
    (startGame { gBase with score := 42 }).score = 42 ∧
    (startGame { gBase with score := 42 }).score ≠ 0 := by decide

/-- Witness for C6 (amended) at the correct-letter tick from gBase and at
a concrete reset. -/
theorem score_behaviour_witness :
    (step rand0 5 0 gBase =
      some { gBase with snake := { x := 10, y := 9 } :: INITIAL_SNAKE,
                        score := 10, wordIndex := 1, foods := [bFood] }) ∧
    (gBase.score ≤ ({ gBase with snake := { x := 10, y := 9 } :: INITIAL_SNAKE,
                                 score := 10, wordIndex := 1,
                                 foods := [bFood] } : GameState).score ∧
     (({ gBase with snake := { x := 10, y := 9 } :: INITIAL_SNAKE, score := 10,
                    wordIndex := 1, foods := [bFood] } : GameState).score = gBase.score ∨
      ({ gBase with snake := { x := 10, y := 9 } :: INITIAL_SNAKE, score := 10,
                    wordIndex := 1, foods := [bFood] } : GameState).score = gBase.score + 10 ∨
      ({ gBase with snake := { x := 10, y := 9 } :: INITIAL_SNAKE, score := 10,
                    wordIndex := 1, foods := [bFood] } : GameState).score = gBase.score + 60)) :=
  ⟨by decide, score_behaviour.1 rand0 5 0 gBase _ (by decide)⟩

/-! ## High-score persistence (claim C8) -/

/-- Claim C8 (amended): the score store's `set` fires, right after a score
or high-score change, exactly when the current score exceeds the stored
high score — regardless of whether the game is Running — writing the
current score; afterwards the stored value equals `max` of the two, so
re-running the effect never writes again until the score grows past it. -/
theorem highScoreEffect_spec (g : GameState) :
    ((highScoreEffect g).2 = some g.score ↔ g.highScore < g.score) ∧
    ((highScoreEffect g).2 = none ↔ g.score ≤ g.highScore) ∧
    (highScoreEffect g).1.highScore = max g.highScore g.score ∧
    (highScoreEffect (highScoreEffect g).1).2 = none := by
  unfold highScoreEffect
  split
  · rename_i hlt
    refine ⟨by simp [hlt], by simp; omega, by simp; omega, by simp⟩
  · rename_i hlt
    refine ⟨by simp; omega, by simp; omega, by simp; omega, by simp [hlt]⟩

/-- Counterexample for C8 as stated: on a state that is still Running
(started, not paused, not game over) with score 10 against stored high
score 0, the effect invokes the store's `set` immediately. -/
theorem highScoreEffect_running_cex :
    ({ gBase with score := 10 } : GameState).gameOver = false ∧
    ({ gBase with score := 10 } : GameState).hasStarted = true ∧
    ({ gBase with score := 10 } : GameState).isPaused = false ∧
    (highScoreEffect { gBase with score := 10 }).2 = some 10 := by decide

/-- Witness for C8 (amended) at gBase. -/
theorem highScoreEffect_spec_witness :
    ((highScoreEffect gBase).2 = some gBase.score ↔ gBase.highScore < gBase.score) ∧
    ((highScoreEffect gBase).2 = none ↔ gBase.score ≤ gBase.highScore) ∧
    (highScoreEffect gBase).1.highScore = max gBase.highScore gBase.score ∧
    (highScoreEffect (highScoreEffect gBase).1).2 = none :=
  highScoreEffect_spec gBase

/-! ## Input while paused (claim C10) -/

/-- gBase paused, with one queued left turn. -/
def gPaused : GameState :=
  { gBase with isPaused := true, dirQueue := [{ x := -1, y := 0 }] }

/-- Claim C10: while the game is paused (started and not game over), a
keyboard direction press is still validated against the reference
direction and appended to the queue, an on-screen button press is
ignored, the tick is a no-op that preserves the accumulated queue, and
once resumed each tick consumes exactly one queued direction. -/
theorem paused_input_behaviour (g : GameState)
    (hS : g.hasStarted = true) (hGO : g.gameOver = false) (hP : g.isPaused = true) :
    (∀ k nd, keyNewDir k (refDir g) = some nd → nd ≠ refDir g →
        (handleKeyDown k g).dirQueue = g.dirQueue ++ [nd]) ∧
    (∀ k, k ≠ Key.space → keyNewDir k (refDir g) = none → handleKeyDown k g = g) ∧
    (∀ nd, handleDirectionClick nd g = g) ∧
    (∀ rand fuel wc, step rand fuel wc g = some g) ∧
    (∀ rand fuel wc g' d rest, g.dirQueue = d :: rest →
        step rand fuel wc { g with isPaused := false } = some g' →
        g'.direction = d ∧ g'.dirQueue = rest) := by
  refine ⟨?pushes, ?rejects, ?clicks, ?ticks, ?resumes⟩
  case pushes =>
    intro k nd hnd hne
    have hks : k ≠ Key.space := by
      intro he
      subst he
      simp [keyNewDir] at hnd
    have hne2 : (refDir g).x ≠ nd.x ∨ (refDir g).y ≠ nd.y := by
      by_contra hc
      push_neg at hc
      exact hne (Pos.ext hc.1.symm hc.2.symm)
    simp only [handleKeyDown, hS, hGO, Bool.not_true, Bool.or_self, Bool.false_eq_true,
      if_false, hks, ite_false, hnd, if_pos hne2]
  case rejects =>
    intro k hks hnone
    simp [handleKeyDown, hS, hGO, hks, hnone]
  case clicks =>
    intro nd
    simp [handleDirectionClick, hS, hGO, hP]
  case ticks =>
    intro rand fuel wc
    simp [step, hS, hGO, hP]
  case resumes =>
    intro rand fuel wc g' d rest hqueue h
    obtain ⟨hd, hqu⟩ :=
      step_run_shift
        (show ({ g with isPaused := false } : GameState).hasStarted = true from hS)
        (show ({ g with isPaused := false } : GameState).gameOver = false from hGO)
        rfl h
    constructor
    · rw [hd]
      simp [nextDir, hqueue]
    · rw [hqu]
      simp [hqueue]

/-- Witness for C10 at the paused state with one queued left turn. -/
theorem paused_input_behaviour_witness :
    (∀ k nd, keyNewDir k (refDir gPaused) = some nd → nd ≠ refDir gPaused →
        (handleKeyDown k gPaused).dirQueue = gPaused.dirQueue ++ [nd]) ∧
    (∀ k, k ≠ Key.space → keyNewDir k (refDir gPaused) = none →
        handleKeyDown k gPaused = gPaused) ∧
    (∀ nd, handleDirectionClick nd gPaused = gPaused) ∧
    (∀ rand fuel wc, step rand fuel wc gPaused = some gPaused) ∧
    (∀ rand fuel wc g' d rest, gPaused.dirQueue = d :: rest →
        step rand fuel wc { gPaused with isPaused := false } = some g' →
        g'.direction = d ∧ g'.dirQueue = rest) :=
  paused_input_behaviour gPaused (by decide) (by decide) (by decide)
